import Mathlib

set_option maxHeartbeats 1000000

/-!
Verification development for the ETF trading decision engine in src/main.py.
Prices are modelled as rationals, volumes and positions as integers, and the
stateful Python functions as pure state-passing functions.  Python floor
division is Int.fdiv and the global position queues become an explicit Ledger.
-/

/-- Order side constant for a buy order, as in the optibook client. -/
def SIDE_BID : String := "bid"

/-- Order side constant for a sell order, as in the optibook client. -/
def SIDE_ASK : String := "ask"

/-- Hard per-instrument position cap MAX_POSITION = 750. -/
def MAX_POSITION : Int := 750

/-- Arbitrage threshold THRESHOLD = 0.05. -/
def THRESHOLD : ℚ := 5 / 100

/-- Fair-value hedge threshold BASKET_THRESHOLD = 10. -/
def BASKET_THRESHOLD : ℚ := 10

/-- Base grid threshold GRID_THRESHOLD = 0.2. -/
def GRID_THRESHOLD : ℚ := 2 / 10

/-- The five traded instruments. -/
inductive Instrument where
  | etf_us
  | etf_eu
  | asml
  | amd
  | nvda
deriving DecidableEq

/-- Authoritative net positions, as returned by the execution service. -/
abbrev Positions := Instrument → Int

/-- One level of an order book: price and available volume. -/
structure PriceLevel where
  price : ℚ
  volume : Int
deriving DecidableEq

/-- An order book: bids (best first) and asks (best first). -/
structure PriceBook where
  bids : List PriceLevel
  asks : List PriceLevel
deriving DecidableEq

/-- Market view: per instrument, the last price book or absent. -/
abbrev Books := Instrument → Option PriceBook

/-- An open lot in the position queues: entry price and volume. -/
structure Lot where
  price : ℚ
  vol : Int
deriving DecidableEq

/-- The two FIFO queues of one instrument in position_queues. -/
structure InstrQueues where
  long : List Lot
  short : List Lot
deriving DecidableEq

/-- The global position_queues dictionary: one pair of queues per instrument. -/
structure Ledger where
  etf_usQ : InstrQueues
  etf_euQ : InstrQueues
  asmlQ : InstrQueues
  amdQ : InstrQueues
  nvdaQ : InstrQueues
deriving DecidableEq

/-- Look up the queues of one instrument. -/
def Ledger.get (L : Ledger) : Instrument → InstrQueues
  | .etf_us => L.etf_usQ
  | .etf_eu => L.etf_euQ
  | .asml => L.asmlQ
  | .amd => L.amdQ
  | .nvda => L.nvdaQ

/-- Replace the queues of one instrument. -/
def Ledger.set (L : Ledger) : Instrument → InstrQueues → Ledger
  | .etf_us, q => { L with etf_usQ := q }
  | .etf_eu, q => { L with etf_euQ := q }
  | .asml, q => { L with asmlQ := q }
  | .amd, q => { L with amdQ := q }
  | .nvda, q => { L with nvdaQ := q }

/-- An order passed to insert_order: instrument, price, volume and side. -/
structure TradeOrder where
  instrument : Instrument
  price : ℚ
  volume : Int
  side : String
deriving DecidableEq

/-- The iteration order of INSTRUMENT_IDS in main.py. -/
def INSTRUMENT_IDS : List Instrument :=
  [.etf_us, .etf_eu, .nvda, .amd, .asml]

/-- is_up from helper.py: the book is present and both sides are non-empty. -/
def is_up : Option PriceBook → Bool
  | none => false
  | some pb => !pb.asks.isEmpty && !pb.bids.isEmpty

/-- First level of a side, with a zero default (only read behind non-empty guards). -/
def headPL (l : List PriceLevel) : PriceLevel := l.headD ⟨0, 0⟩

/-- risk_allowed from main.py: maximum volume allowed for an order side given
the current authoritative position. -/
def risk_allowed (pos : Positions) (i : Instrument) (side : String) : Int :=
  max
    (if side = SIDE_BID then MAX_POSITION - pos i
     else if side = SIDE_ASK then MAX_POSITION + pos i
     else 0)
    0

/-- The offsetting while-loop of record_trade: consume lots of the opposite
queue oldest-first while volume remains, returning the remaining queue and the
leftover volume. -/
def offsetFifo : List Lot → Int → List Lot × Int
  | [], v => ([], v)
  | lot :: rest, v =>
    if v ≤ 0 then (lot :: rest, v)
    else if lot.vol ≤ v then offsetFifo rest (v - lot.vol)
    else (⟨lot.price, lot.vol - v⟩ :: rest, 0)

/-- record_trade from main.py, acting on the queues of one instrument: a buy
offsets short lots first and appends any leftover as a long lot; a sell is
symmetric; any other side is ignored. -/
def recordTrade (side : String) (price : ℚ) (volume : Int) (q : InstrQueues) : InstrQueues :=
  if side = SIDE_BID then
    let r := offsetFifo q.short volume
    { long := if 0 < r.2 then q.long ++ [⟨price, r.2⟩] else q.long, short := r.1 }
  else if side = SIDE_ASK then
    let r := offsetFifo q.long volume
    { long := r.1, short := if 0 < r.2 then q.short ++ [⟨price, r.2⟩] else q.short }
  else q

/-- record_trade lifted to the whole Ledger (position_queues dictionary). -/
def record_trade (L : Ledger) (i : Instrument) (side : String) (price : ℚ) (volume : Int) :
    Ledger :=
  L.set i (recordTrade side price volume (L.get i))

/-- Sum of the five authoritative positions (the basket exposure). -/
def basket_total (pos : Positions) : Int :=
  pos .etf_us + pos .etf_eu + pos .asml + pos .amd + pos .nvda

/-- get_dynamic_grid_threshold from main.py: the grid threshold, halved when
the absolute basket exposure exceeds 80 percent of 300. -/
def get_dynamic_grid_threshold (pos : Positions) : ℚ :=
  if |(basket_total pos : ℚ)| > (8 / 10) * 300 then GRID_THRESHOLD / 2 else GRID_THRESHOLD

/-- The long-lot walk of auto_calibrate_positions: while the best bid exceeds
entry price plus threshold, sell the full lot at the bid and remove it;
returns the remaining queue and the (price, volume) sells in order. -/
def calibrateLong (bid thr : ℚ) : List Lot → List Lot × List (ℚ × Int)
  | [] => ([], [])
  | lot :: rest =>
    if bid > lot.price + thr then
      let r := calibrateLong bid thr rest
      (r.1, (bid, lot.vol) :: r.2)
    else (lot :: rest, [])

/-- The short-lot walk of auto_calibrate_positions: while the best ask is below
entry price minus threshold, buy the full lot back at the ask and remove it. -/
def calibrateShort (ask thr : ℚ) : List Lot → List Lot × List (ℚ × Int)
  | [] => ([], [])
  | lot :: rest =>
    if ask < lot.price - thr then
      let r := calibrateShort ask thr rest
      (r.1, (ask, lot.vol) :: r.2)
    else (lot :: rest, [])

/-- auto_calibrate_positions restricted to one instrument: skip a missing book,
walk long lots only when bids are non-empty and short lots only when asks are
non-empty. -/
def autoCalibrateInstr (i : Instrument) (pb? : Option PriceBook) (thr : ℚ)
    (q : InstrQueues) : InstrQueues × List TradeOrder :=
  match pb? with
  | none => (q, [])
  | some pb =>
    let longR : List Lot × List TradeOrder :=
      match pb.bids with
      | [] => (q.long, [])
      | b :: _ =>
        let r := calibrateLong b.price thr q.long
        (r.1, r.2.map fun u => ⟨i, u.1, u.2, SIDE_ASK⟩)
    let shortR : List Lot × List TradeOrder :=
      match pb.asks with
      | [] => (q.short, [])
      | a :: _ =>
        let r := calibrateShort a.price thr q.short
        (r.1, r.2.map fun u => ⟨i, u.1, u.2, SIDE_BID⟩)
    (⟨longR.1, shortR.1⟩, longR.2 ++ shortR.2)

/-- auto_calibrate_positions from main.py, iterating position_queues in its
dictionary order ETF_US, ETF_EU, ASML, AMD, NVDA. -/
def auto_calibrate_positions (books : Books) (pos : Positions) (L : Ledger) :
    Ledger × List TradeOrder :=
  let thr := get_dynamic_grid_threshold pos
  let r1 := autoCalibrateInstr .etf_us (books .etf_us) thr L.etf_usQ
  let r2 := autoCalibrateInstr .etf_eu (books .etf_eu) thr L.etf_euQ
  let r3 := autoCalibrateInstr .asml (books .asml) thr L.asmlQ
  let r4 := autoCalibrateInstr .amd (books .amd) thr L.amdQ
  let r5 := autoCalibrateInstr .nvda (books .nvda) thr L.nvdaQ
  (⟨r1.1, r2.1, r3.1, r4.1, r5.1⟩, r1.2 ++ r2.2 ++ r3.2 ++ r4.2 ++ r5.2)

/-- arbitrage_strategy from main.py: sell the US listing at its bid and buy the
EU listing at its ask when US bid exceeds EU ask plus the threshold, sized by
touch volumes and risk_allowed on both legs; records both trades. -/
def arbitrage_strategy (books : Books) (pos : Positions) (L : Ledger) (threshold : ℚ) :
    List TradeOrder × Ledger :=
  let etf_us := books Instrument.etf_us
  let etf_eu := books Instrument.etf_eu
  if !(is_up etf_us && is_up etf_eu) then ([], L)
  else
    let us := etf_us.getD ⟨[], []⟩
    let eu := etf_eu.getD ⟨[], []⟩
    if us.bids.isEmpty || eu.asks.isEmpty then ([], L)
    else
      let bid_price_us := (headPL us.bids).price
      let ask_price_eu := (headPL eu.asks).price
      if bid_price_us > ask_price_eu + threshold then
        let order_volume := min (headPL us.bids).volume (headPL eu.asks).volume
        let allowed_sell_us := risk_allowed pos Instrument.etf_us SIDE_ASK
        let allowed_buy_eu := risk_allowed pos Instrument.etf_eu SIDE_BID
        let volume := min (min order_volume allowed_sell_us) allowed_buy_eu
        if 0 < volume then
          let L1 := record_trade L Instrument.etf_us SIDE_ASK bid_price_us volume
          let L2 := record_trade L1 Instrument.etf_eu SIDE_BID ask_price_eu volume
          ([⟨Instrument.etf_us, bid_price_us, volume, SIDE_ASK⟩,
            ⟨Instrument.etf_eu, ask_price_eu, volume, SIDE_BID⟩], L2)
        else ([], L)
      else ([], L)

/-- reverse_arbitrage_strategy from main.py: the symmetric EU-to-US direction. -/
def reverse_arbitrage_strategy (books : Books) (pos : Positions) (L : Ledger)
    (threshold : ℚ) : List TradeOrder × Ledger :=
  let etf_us := books Instrument.etf_us
  let etf_eu := books Instrument.etf_eu
  if !(is_up etf_us && is_up etf_eu) then ([], L)
  else
    let us := etf_us.getD ⟨[], []⟩
    let eu := etf_eu.getD ⟨[], []⟩
    if eu.bids.isEmpty || us.asks.isEmpty then ([], L)
    else
      let bid_price_eu := (headPL eu.bids).price
      let ask_price_us := (headPL us.asks).price
      if bid_price_eu > ask_price_us + threshold then
        let order_volume := min (headPL eu.bids).volume (headPL us.asks).volume
        let allowed_sell_eu := risk_allowed pos Instrument.etf_eu SIDE_ASK
        let allowed_buy_us := risk_allowed pos Instrument.etf_us SIDE_BID
        let volume := min (min order_volume allowed_sell_eu) allowed_buy_us
        if 0 < volume then
          let L1 := record_trade L Instrument.etf_eu SIDE_ASK bid_price_eu volume
          let L2 := record_trade L1 Instrument.etf_us SIDE_BID ask_price_us volume
          ([⟨Instrument.etf_eu, bid_price_eu, volume, SIDE_ASK⟩,
            ⟨Instrument.etf_us, ask_price_us, volume, SIDE_BID⟩], L2)
        else ([], L)
      else ([], L)

/-- The six last-known underlying prices (module-level globals in main.py). -/
structure PriceCache where
  asml_bid : ℚ
  amd_bid : ℚ
  nvda_bid : ℚ
  asml_ask : ℚ
  amd_ask : ℚ
  nvda_ask : ℚ
deriving DecidableEq

/-- One field of update_underlying_prices: the first price of the given side
when the book is present and the side non-empty, otherwise the old value. -/
def lastOr (pb? : Option PriceBook) (proj : PriceBook → List PriceLevel) (old : ℚ) : ℚ :=
  match pb? with
  | some pb =>
    match proj pb with
    | l :: _ => l.price
    | [] => old
  | none => old

/-- update_underlying_prices from main.py: refresh the six last-known prices,
retaining the previous value when a book or side is missing. -/
def update_underlying_prices (books : Books) (c : PriceCache) : PriceCache :=
  { asml_bid := lastOr (books Instrument.asml) PriceBook.bids c.asml_bid,
    amd_bid := lastOr (books Instrument.amd) PriceBook.bids c.amd_bid,
    nvda_bid := lastOr (books Instrument.nvda) PriceBook.bids c.nvda_bid,
    asml_ask := lastOr (books Instrument.asml) PriceBook.asks c.asml_ask,
    amd_ask := lastOr (books Instrument.amd) PriceBook.asks c.amd_ask,
    nvda_ask := lastOr (books Instrument.nvda) PriceBook.asks c.nvda_ask }

/-- The first guard of hedge_basket_strategy: one of the four needed books is
absent. -/
def hedgeBooksMissing (books : Books) : Bool :=
  (books Instrument.etf_us).isNone || (books Instrument.asml).isNone ||
  (books Instrument.amd).isNone || (books Instrument.nvda).isNone

/-- The second guard of hedge_basket_strategy: one of the eight needed sides is
empty. -/
def hedgeSidesEmpty (books : Books) : Bool :=
  let etf := (books Instrument.etf_us).getD ⟨[], []⟩
  let asml := (books Instrument.asml).getD ⟨[], []⟩
  let amd := (books Instrument.amd).getD ⟨[], []⟩
  let nvda := (books Instrument.nvda).getD ⟨[], []⟩
  etf.bids.isEmpty || etf.asks.isEmpty || asml.bids.isEmpty || asml.asks.isEmpty ||
  amd.bids.isEmpty || amd.asks.isEmpty || nvda.bids.isEmpty || nvda.asks.isEmpty

/-- hedge_basket_strategy from main.py: refresh the last-known underlying
prices, abort on missing data, and otherwise trade the ETF against the three
underlyings (ETF leg sized at three times the unit volume). -/
def hedge_basket_strategy (books : Books) (pos : Positions) (c0 : PriceCache)
    (L : Ledger) : PriceCache × List TradeOrder × Ledger :=
  let c := update_underlying_prices books c0
  if hedgeBooksMissing books then (c, [], L)
  else if hedgeSidesEmpty books then (c, [], L)
  else
    let etf := (books Instrument.etf_us).getD ⟨[], []⟩
    let asml := (books Instrument.asml).getD ⟨[], []⟩
    let amd := (books Instrument.amd).getD ⟨[], []⟩
    let nvda := (books Instrument.nvda).getD ⟨[], []⟩
    let avg_underlying_bid := (c.asml_bid + c.amd_bid + c.nvda_bid) / 3
    let avg_underlying_ask := (c.asml_ask + c.amd_ask + c.nvda_ask) / 3
    let etf_bid := (headPL etf.bids).price
    let etf_ask := (headPL etf.asks).price
    if etf_ask < avg_underlying_bid - BASKET_THRESHOLD then
      let volume := min (min (min (min (Int.fdiv (headPL etf.asks).volume 3)
        (headPL asml.bids).volume) (headPL amd.bids).volume) (headPL nvda.bids).volume) 10
      let allowed_buy_etf := risk_allowed pos Instrument.etf_us SIDE_BID
      let allowed_sell_asml := risk_allowed pos Instrument.asml SIDE_ASK
      let allowed_sell_amd := risk_allowed pos Instrument.amd SIDE_ASK
      let allowed_sell_nvda := risk_allowed pos Instrument.nvda SIDE_ASK
      let allowed_volume := min (min (min (min volume allowed_buy_etf) allowed_sell_asml)
        allowed_sell_amd) allowed_sell_nvda
      if 0 < allowed_volume then
        let L1 := record_trade L Instrument.etf_us SIDE_BID etf_ask (allowed_volume * 3)
        let L2 := record_trade L1 Instrument.asml SIDE_ASK (headPL asml.bids).price
          allowed_volume
        let L3 := record_trade L2 Instrument.amd SIDE_ASK (headPL amd.bids).price
          allowed_volume
        let L4 := record_trade L3 Instrument.nvda SIDE_ASK (headPL nvda.bids).price
          allowed_volume
        (c, [⟨Instrument.etf_us, etf_ask, allowed_volume * 3, SIDE_BID⟩,
             ⟨Instrument.asml, (headPL asml.bids).price, allowed_volume, SIDE_ASK⟩,
             ⟨Instrument.amd, (headPL amd.bids).price, allowed_volume, SIDE_ASK⟩,
             ⟨Instrument.nvda, (headPL nvda.bids).price, allowed_volume, SIDE_ASK⟩], L4)
      else (c, [], L)
    else if etf_bid > avg_underlying_ask + BASKET_THRESHOLD then
      let volume := min (min (min (min (Int.fdiv (headPL etf.bids).volume 3)
        (headPL asml.asks).volume) (headPL amd.asks).volume) (headPL nvda.asks).volume) 10
      let allowed_sell_etf := risk_allowed pos Instrument.etf_us SIDE_ASK
      let allowed_buy_asml := risk_allowed pos Instrument.asml SIDE_BID
      let allowed_buy_amd := risk_allowed pos Instrument.amd SIDE_BID
      let allowed_buy_nvda := risk_allowed pos Instrument.nvda SIDE_BID
      let allowed_volume := min (min (min (min volume allowed_sell_etf) allowed_buy_asml)
        allowed_buy_amd) allowed_buy_nvda
      if 0 < allowed_volume then
        let L1 := record_trade L Instrument.etf_us SIDE_ASK etf_bid (allowed_volume * 3)
        let L2 := record_trade L1 Instrument.asml SIDE_BID (headPL asml.asks).price
          allowed_volume
        let L3 := record_trade L2 Instrument.amd SIDE_BID (headPL amd.asks).price
          allowed_volume
        let L4 := record_trade L3 Instrument.nvda SIDE_BID (headPL nvda.asks).price
          allowed_volume
        (c, [⟨Instrument.etf_us, etf_bid, allowed_volume * 3, SIDE_ASK⟩,
             ⟨Instrument.asml, (headPL asml.asks).price, allowed_volume, SIDE_BID⟩,
             ⟨Instrument.amd, (headPL amd.asks).price, allowed_volume, SIDE_BID⟩,
             ⟨Instrument.nvda, (headPL nvda.asks).price, allowed_volume, SIDE_BID⟩], L4)
      else (c, [], L)
    else (c, [], L)

/-- The corrective-order block of check_and_correct_basket_limit: evenly
distributed IOC orders toward the hard band, iterating INSTRUMENT_IDS. -/
def basketCorrectionOrders (pos : Positions) (books : Books) : List TradeOrder :=
  let basket := basket_total pos
  if basket > 300 then
    let excess := basket - 250
    let trade_volume := Int.fdiv excess 5 + 1
    INSTRUMENT_IDS.filterMap fun i =>
      if pos i > 0 then
        match books i with
        | some pb =>
          match pb.bids with
          | b :: _ => some ⟨i, b.price, min (pos i) trade_volume, SIDE_ASK⟩
          | [] => none
        | none => none
      else none
  else if basket < -300 then
    let excess := -250 - basket
    let trade_volume := Int.fdiv excess 5 + 1
    INSTRUMENT_IDS.filterMap fun i =>
      if pos i < 0 then
        match books i with
        | some pb =>
          match pb.asks with
          | a :: _ => some ⟨i, a.price, min |pos i| trade_volume, SIDE_BID⟩
          | [] => none
        | none => none
      else none
  else []

/-- check_and_correct_basket_limit from main.py as a step function on the
breach timer: returns the new timer, whether the correction branch fired, and
the corrective orders issued. -/
def check_and_correct_basket_limit (timer : Option ℚ) (now : ℚ) (pos : Positions)
    (books : Books) : Option ℚ × Bool × List TradeOrder :=
  if -250 ≤ basket_total pos ∧ basket_total pos ≤ 250 then (none, false, [])
  else
    match timer with
    | none => (some now, false, [])
    | some s =>
      if now - s > 5 / 2 then (none, true, basketCorrectionOrders pos books)
      else (some s, false, [])

/-- One observation of the basket guard: the wall-clock time of the check and
the authoritative positions and books at that moment. -/
structure GuardObs where
  now : ℚ
  pos : Positions
  books : Books

/-- The breach timer before the n-th basket-guard check of a run that starts
with the timer unset. -/
def guardTimerAt (f : Nat → GuardObs) : Nat → Option ℚ
  | 0 => none
  | n + 1 =>
    (check_and_correct_basket_limit (guardTimerAt f n) (f n).now (f n).pos (f n).books).1

/-- Whether the n-th basket-guard check of a run enters the correction branch. -/
def guardFiredAt (f : Nat → GuardObs) (n : Nat) : Bool :=
  (check_and_correct_basket_limit (guardTimerAt f n) (f n).now (f n).pos (f n).books).2.1

/-- The corrective orders issued by the n-th basket-guard check of a run. -/
def guardOrdersAt (f : Nat → GuardObs) (n : Nat) : List TradeOrder :=
  (check_and_correct_basket_limit (guardTimerAt f n) (f n).now (f n).pos (f n).books).2.2

/-- Sum of the volumes of a lot queue. -/
def sumVol (l : List Lot) : Int := (l.map Lot.vol).sum

/-- Net signed volume implied by the queues of one instrument. -/
def netLedger (q : InstrQueues) : Int := sumVol q.long - sumVol q.short

/-- One recorded trade: side, price and volume. -/
structure TradeRec where
  side : String
  price : ℚ
  vol : Int
deriving DecidableEq

/-- Apply a sequence of record_trade calls to the queues of one instrument. -/
def applyTrades (q : InstrQueues) : List TradeRec → InstrQueues
  | [] => q
  | t :: ts => applyTrades (recordTrade t.side t.price t.vol q) ts

/-- Signed volume of one trade: buys count positive, sells negative. -/
def signedVol (t : TradeRec) : Int :=
  if t.side = SIDE_BID then t.vol else if t.side = SIDE_ASK then -t.vol else 0

/-- Both queues of one instrument empty. -/
def emptyQueues : InstrQueues := ⟨[], []⟩

/-- The initial ledger: every queue empty, as position_queues starts. -/
def emptyLedger : Ledger :=
  ⟨emptyQueues, emptyQueues, emptyQueues, emptyQueues, emptyQueues⟩

/-- The initial price cache: all six last-known prices zero. -/
def zeroCache : PriceCache := ⟨0, 0, 0, 0, 0, 0⟩

/-- Positions that are zero except one instrument. -/
def posOf (i0 : Instrument) (v : Int) : Positions := fun i => if i = i0 then v else 0

/-- All five positions zero. -/
def zeroPos : Positions := fun _ => 0

/-- The FIFO reduction shape: the new queue is a suffix of the old one, except
that possibly the first surviving lot has had its volume strictly reduced. -/
def fifoReduce (old new : List Lot) : Prop :=
  ∃ k, k ≤ old.length ∧
    (new = old.drop k ∨
      ∃ lot rest2 w, old.drop k = lot :: rest2 ∧ 0 < w ∧ w < lot.vol ∧
        new = ⟨lot.price, w⟩ :: rest2)

/-- Abort condition of the fair-value hedge: a needed book absent or a needed
side empty. -/
def hedgeAbort (books : Books) : Prop :=
  books Instrument.etf_us = none ∨ books Instrument.asml = none ∨
  books Instrument.amd = none ∨ books Instrument.nvda = none ∨
  ((books Instrument.etf_us).getD ⟨[], []⟩).bids = [] ∨
  ((books Instrument.etf_us).getD ⟨[], []⟩).asks = [] ∨
  ((books Instrument.asml).getD ⟨[], []⟩).bids = [] ∨
  ((books Instrument.asml).getD ⟨[], []⟩).asks = [] ∨
  ((books Instrument.amd).getD ⟨[], []⟩).bids = [] ∨
  ((books Instrument.amd).getD ⟨[], []⟩).asks = [] ∨
  ((books Instrument.nvda).getD ⟨[], []⟩).bids = [] ∨
  ((books Instrument.nvda).getD ⟨[], []⟩).asks = []

/-- Abort condition of the cross-listing arbitrage strategies: an ETF book
absent or one of its sides empty. -/
def arbAbort (books : Books) : Prop :=
  books Instrument.etf_us = none ∨ books Instrument.etf_eu = none ∨
  ((books Instrument.etf_us).getD ⟨[], []⟩).bids = [] ∨
  ((books Instrument.etf_us).getD ⟨[], []⟩).asks = [] ∨
  ((books Instrument.etf_eu).getD ⟨[], []⟩).bids = [] ∨
  ((books Instrument.etf_eu).getD ⟨[], []⟩).asks = []

/-- Concrete failing input for the hedge cap breach: ETF_US position 745. -/
def c1Pos : Positions := posOf .etf_us 745

/-- Concrete failing input for the hedge cap breach: ETF ask 100 with volume
15, underlyings bid 200 with volume 5. -/
def c1Books : Books := fun i =>
  match i with
  | .etf_us => some ⟨[⟨99, 1⟩], [⟨100, 15⟩]⟩
  | .etf_eu => none
  | .asml => some ⟨[⟨200, 5⟩], [⟨201, 7⟩]⟩
  | .amd => some ⟨[⟨200, 5⟩], [⟨201, 7⟩]⟩
  | .nvda => some ⟨[⟨200, 5⟩], [⟨201, 7⟩]⟩

/-- Positions summing to 310 (all on ETF_US), for the basket-correction size. -/
def c2Pos : Positions := posOf .etf_us 310

/-- Books with both sides quoted on every instrument. -/
def c2Books : Books := fun _ => some ⟨[⟨100, 50⟩], [⟨101, 50⟩]⟩

/-- The arbitrage scenario books: US bid 100.10 volume 50, EU ask 100.00
volume 50, both books fully quoted. -/
def c7Books : Books := fun i =>
  match i with
  | .etf_us => some ⟨[⟨1001 / 10, 50⟩], [⟨200, 1⟩]⟩
  | .etf_eu => some ⟨[⟨1, 1⟩], [⟨100, 50⟩]⟩
  | _ => none

/-- The arbitrage scenario positions: risk allowance 1000 on both legs. -/
def c7Pos : Positions := fun i =>
  match i with
  | .etf_us => 250
  | .etf_eu => -250
  | _ => 0

/-- Basket-guard scenario: breach for 2.4 seconds, recovery, breach for
2.4 seconds, at checks 0, 1.2, 2.4, 2.5, 3, 4.2, 5.4 seconds. -/
def scObs : Nat → GuardObs := fun n =>
  { now := ([0, 6 / 5, 12 / 5, 5 / 2, 3, 21 / 5, 27 / 5] : List ℚ).getD n 0,
    pos := if n = 3 then zeroPos else posOf .etf_us 310,
    books := c2Books }

/-- Basket-guard run that does fire: breach at time 0 still present at time 3. -/
def fireTrace : Nat → GuardObs := fun n =>
  { now := if n = 0 then 0 else 3,
    pos := posOf .etf_us 310,
    books := c2Books }

/-- A market view with every book absent. -/
def noneBooks : Books := fun _ => none

/-- A market view where only ASML has a book: AMD has no book at all. -/
def c8Books : Books := fun i =>
  match i with
  | .asml => some ⟨[⟨10, 1⟩], [⟨11, 1⟩]⟩
  | _ => none

/-- A ledger holding one exploitable ASML long lot and nothing else. -/
def c8Ledger : Ledger :=
  ⟨emptyQueues, emptyQueues, ⟨[⟨5, 2⟩], []⟩, emptyQueues, emptyQueues⟩

theorem sumVol_nil : sumVol [] = 0 := rfl

theorem sumVol_cons (a : Lot) (l : List Lot) : sumVol (a :: l) = a.vol + sumVol l := by
  simp [sumVol]

theorem sumVol_append_single (l : List Lot) (a : Lot) :
    sumVol (l ++ [a]) = sumVol l + a.vol := by
  simp [sumVol]

theorem offsetFifo_nonpos (q : List Lot) (v : Int) (hv : v ≤ 0) :
    offsetFifo q v = (q, v) := by
  cases q with
  | nil => rfl
  | cons lot rest => simp [offsetFifo, hv]

theorem offsetFifo_spec (q : List Lot) : ∀ (v : Int), 0 ≤ v → (∀ l ∈ q, 0 < l.vol) →
    ∀ (q2 : List Lot) (r : Int), offsetFifo q v = (q2, r) →
    sumVol q2 = sumVol q - v + r ∧ 0 ≤ r ∧ r ≤ v ∧
    (∀ l ∈ q2, 0 < l.vol) ∧ (0 < r → q2 = []) := by
  induction q with
  | nil =>
    intro v hv _ q2 r heq
    simp only [offsetFifo, Prod.mk.injEq] at heq
    obtain ⟨h1, h2⟩ := heq
    subst h1; subst h2
    exact ⟨by simp [sumVol], hv, le_refl v, by simp, fun _ => rfl⟩
  | cons lot rest ih =>
    intro v hv hq q2 r heq
    rcases le_or_lt v 0 with h0 | h0
    · rw [offsetFifo, if_pos h0] at heq
      obtain ⟨h1, h2⟩ := Prod.mk.injEq .. ▸ heq
      subst h1; subst h2
      have hv0 : v = 0 := le_antisymm h0 hv
      subst hv0
      exact ⟨by omega, le_refl 0, le_refl 0, hq, by omega⟩
    · rcases le_or_lt lot.vol v with hle | hgt
      · rw [offsetFifo, if_neg (by omega), if_pos hle] at heq
        have hlot : 0 < lot.vol := hq lot (List.mem_cons_self lot rest)
        obtain ⟨hsum, hr0, hrv, hpos, hemp⟩ :=
          ih (v - lot.vol) (by omega) (fun l hl => hq l (List.mem_cons_of_mem _ hl)) q2 r heq
        refine ⟨?_, hr0, by omega, hpos, hemp⟩
        rw [hsum, sumVol_cons]
        omega
      · rw [offsetFifo, if_neg (by omega), if_neg (by omega)] at heq
        obtain ⟨h1, h2⟩ := Prod.mk.injEq .. ▸ heq
        subst h1; subst h2
        refine ⟨?_, le_refl 0, hv, ?_, by omega⟩
        · rw [sumVol_cons, sumVol_cons]
          simp only []
          omega
        · intro l hl
          rcases List.mem_cons.mp hl with h | h
          · subst h; simp only []; omega
          · exact hq l (List.mem_cons_of_mem _ h)

theorem offsetFifo_fifo (q : List Lot) : ∀ (v : Int) (q2 : List Lot) (r : Int),
    offsetFifo q v = (q2, r) → fifoReduce q q2 := by
  induction q with
  | nil =>
    intro v q2 r heq
    simp only [offsetFifo, Prod.mk.injEq] at heq
    exact ⟨0, by simp, Or.inl heq.1.symm⟩
  | cons lot rest ih =>
    intro v q2 r heq
    rcases le_or_lt v 0 with h0 | h0
    · rw [offsetFifo, if_pos h0] at heq
      obtain ⟨h1, h2⟩ := Prod.mk.injEq .. ▸ heq
      exact ⟨0, by simp, Or.inl h1.symm⟩
    · rcases le_or_lt lot.vol v with hle | hgt
      · rw [offsetFifo, if_neg (by omega), if_pos hle] at heq
        obtain ⟨k, hk, hcase⟩ := ih (v - lot.vol) q2 r heq
        refine ⟨k + 1, by simp; omega, ?_⟩
        rw [List.drop_succ_cons]
        exact hcase
      · rw [offsetFifo, if_neg (by omega), if_neg (by omega)] at heq
        obtain ⟨h1, h2⟩ := Prod.mk.injEq .. ▸ heq
        refine ⟨0, by simp, Or.inr ⟨lot, rest, lot.vol - v, by simp, by omega, by omega, h1.symm⟩⟩

theorem recordTrade_other (side : String) (price : ℚ) (v : Int) (q : InstrQueues)
    (h1 : side ≠ SIDE_BID) (h2 : side ≠ SIDE_ASK) : recordTrade side price v q = q := by
  simp [recordTrade, h1, h2]

theorem recordTrade_nonpos (side : String) (price : ℚ) (v : Int) (q : InstrQueues)
    (hv : v ≤ 0) : recordTrade side price v q = q := by
  by_cases hb : side = SIDE_BID
  · simp [recordTrade, hb, offsetFifo_nonpos _ _ hv, not_lt.mpr hv]
  · by_cases ha : side = SIDE_ASK
    · simp [recordTrade, hb, ha, offsetFifo_nonpos _ _ hv, not_lt.mpr hv]
    · exact recordTrade_other _ _ _ _ hb ha

theorem Ledger.set_get (L : Ledger) (i : Instrument) : L.set i (L.get i) = L := by
  cases i <;> rfl

theorem recordTrade_effect (side : String) (price : ℚ) (v : Int) (q : InstrQueues)
    (hv : 0 < v) (hl : ∀ l ∈ q.long, 0 < l.vol) (hs : ∀ l ∈ q.short, 0 < l.vol) :
    netLedger (recordTrade side price v q) = netLedger q + signedVol ⟨side, price, v⟩ ∧
    (∀ l ∈ (recordTrade side price v q).long, 0 < l.vol) ∧
    (∀ l ∈ (recordTrade side price v q).short, 0 < l.vol) := by
  by_cases hb : side = SIDE_BID
  · subst hb
    obtain ⟨q2, r, heq⟩ : ∃ q2 r, offsetFifo q.short v = (q2, r) := ⟨_, _, rfl⟩
    obtain ⟨hsum, hr0, hrv, hpos, _⟩ := offsetFifo_spec q.short v (le_of_lt hv) hs q2 r heq
    have hred : recordTrade SIDE_BID price v q =
        ⟨if 0 < r then q.long ++ [⟨price, r⟩] else q.long, q2⟩ := by
      simp +decide [recordTrade, heq]
    have hsv : signedVol ⟨SIDE_BID, price, v⟩ = v := by simp +decide [signedVol]
    rw [hred, hsv]
    rcases lt_or_le 0 r with hr | hr
    · refine ⟨?_, ?_, hpos⟩
      · simp only [netLedger, if_pos hr, sumVol_append_single, hsum]
        omega
      · intro l hl2
        simp only [if_pos hr] at hl2
        rcases List.mem_append.mp hl2 with h | h
        · exact hl l h
        · rcases List.mem_singleton.mp h with h2
          subst h2
          exact hr
    · have hr0e : r = 0 := le_antisymm hr hr0
      subst hr0e
      refine ⟨?_, ?_, hpos⟩
      · simp only [netLedger, if_neg (by omega : ¬ (0:Int) < 0), hsum]
        omega
      · intro l hl2
        simp only [if_neg (by omega : ¬ (0:Int) < 0)] at hl2
        exact hl l hl2
  · by_cases ha : side = SIDE_ASK
    · subst ha
      obtain ⟨q2, r, heq⟩ : ∃ q2 r, offsetFifo q.long v = (q2, r) := ⟨_, _, rfl⟩
      obtain ⟨hsum, hr0, hrv, hpos, _⟩ := offsetFifo_spec q.long v (le_of_lt hv) hl q2 r heq
      have hred : recordTrade SIDE_ASK price v q =
          ⟨q2, if 0 < r then q.short ++ [⟨price, r⟩] else q.short⟩ := by
        simp +decide [recordTrade, heq]
      have hsv : signedVol ⟨SIDE_ASK, price, v⟩ = -v := by simp +decide [signedVol]
      rw [hred, hsv]
      rcases lt_or_le 0 r with hr | hr
      · refine ⟨?_, hpos, ?_⟩
        · simp only [netLedger, if_pos hr, sumVol_append_single, hsum]
          omega
        · intro l hl2
          simp only [if_pos hr] at hl2
          rcases List.mem_append.mp hl2 with h | h
          · exact hs l h
          · rcases List.mem_singleton.mp h with h2
            subst h2
            exact hr
      · have hr0e : r = 0 := le_antisymm hr hr0
        subst hr0e
        refine ⟨?_, hpos, ?_⟩
        · simp only [netLedger, if_neg (by omega : ¬ (0:Int) < 0), hsum]
          omega
        · intro l hl2
          simp only [if_neg (by omega : ¬ (0:Int) < 0)] at hl2
          exact hs l hl2
    · rw [recordTrade_other _ _ _ _ hb ha]
      have hsv : signedVol ⟨side, price, v⟩ = 0 := by simp [signedVol, hb, ha]
      rw [hsv]
      exact ⟨by omega, hl, hs⟩

theorem applyTrades_net (ts : List TradeRec) : ∀ (q : InstrQueues),
    (∀ t ∈ ts, 0 < t.vol) → (∀ l ∈ q.long, 0 < l.vol) → (∀ l ∈ q.short, 0 < l.vol) →
    netLedger (applyTrades q ts) = netLedger q + (ts.map signedVol).sum ∧
    (∀ l ∈ (applyTrades q ts).long, 0 < l.vol) ∧
    (∀ l ∈ (applyTrades q ts).short, 0 < l.vol) := by
  induction ts with
  | nil => intro q _ hl hs; exact ⟨by simp [applyTrades], hl, hs⟩
  | cons t ts ih =>
    intro q hts hl hs
    have hv : 0 < t.vol := hts t (List.mem_cons_self t ts)
    obtain ⟨hnet, hl2, hs2⟩ := recordTrade_effect t.side t.price t.vol q hv hl hs
    obtain ⟨hnet2, hl3, hs3⟩ := ih (recordTrade t.side t.price t.vol q)
      (fun u hu => hts u (List.mem_cons_of_mem _ hu)) hl2 hs2
    refine ⟨?_, hl3, hs3⟩
    simp only [applyTrades, hnet2, List.map_cons, List.sum_cons]
    rw [show (⟨t.side, t.price, t.vol⟩ : TradeRec) = t from rfl] at hnet
    omega

/-- C3: for every sequence of record_trade calls on one instrument, each with
positive volume, the sum of long lot volumes minus the sum of short lot
volumes equals the running sum of signed trade volumes (buy positive, sell
negative). -/
theorem ledger_net_conservation (ts : List TradeRec) (h : ∀ t ∈ ts, 0 < t.vol) :
    netLedger (applyTrades emptyQueues ts) = (ts.map signedVol).sum := by
  obtain ⟨hnet, _, _⟩ := applyTrades_net ts emptyQueues h
    (by intro l hl; simp [emptyQueues] at hl) (by intro l hl; simp [emptyQueues] at hl)
  simpa [netLedger, emptyQueues, sumVol] using hnet

/-- Witness for C3 at a concrete trade sequence: a buy of 5 then a sell of 3
leaves net ledger volume 2. -/
theorem ledger_net_conservation_witness :
    (∀ t ∈ [(⟨SIDE_BID, 10, 5⟩ : TradeRec), ⟨SIDE_ASK, 11, 3⟩], 0 < t.vol) ∧
    netLedger (applyTrades emptyQueues [⟨SIDE_BID, 10, 5⟩, ⟨SIDE_ASK, 11, 3⟩]) =
      ([(⟨SIDE_BID, 10, 5⟩ : TradeRec), ⟨SIDE_ASK, 11, 3⟩].map signedVol).sum := by
  constructor
  · intro t ht
    rcases List.mem_cons.mp ht with h | h
    · subst h; norm_num
    · rcases List.mem_singleton.mp h with h2
      subst h2; norm_num
  · exact ledger_net_conservation _ (by
      intro t ht
      rcases List.mem_cons.mp ht with h | h
      · subst h; norm_num
      · rcases List.mem_singleton.mp h with h2
        subst h2; norm_num)

/-- C4: record_trade offsets strictly in FIFO order.  With positive trade
volume and positive lots, a buy leaves the short queue a suffix of the old one
with at most the first surviving lot strictly reduced (oldest lots consumed
first, a lot removed exactly when fully consumed), any leftover is appended as
one new long lot (only possible when the short queue is exhausted), no lot
ever has non-positive volume, and a sell is symmetric against the long
queue. -/
theorem record_trade_fifo (price : ℚ) (v : Int) (q : InstrQueues)
    (hv : 0 < v) (hl : ∀ l ∈ q.long, 0 < l.vol) (hs : ∀ l ∈ q.short, 0 < l.vol) :
    ((∀ l ∈ (recordTrade SIDE_BID price v q).long, 0 < l.vol) ∧
     (∀ l ∈ (recordTrade SIDE_BID price v q).short, 0 < l.vol) ∧
     fifoReduce q.short (recordTrade SIDE_BID price v q).short ∧
     ((recordTrade SIDE_BID price v q).long = q.long ∨
       ∃ r, 0 < r ∧ r ≤ v ∧
         (recordTrade SIDE_BID price v q).long = q.long ++ [⟨price, r⟩] ∧
         (recordTrade SIDE_BID price v q).short = [])) ∧
    ((∀ l ∈ (recordTrade SIDE_ASK price v q).long, 0 < l.vol) ∧
     (∀ l ∈ (recordTrade SIDE_ASK price v q).short, 0 < l.vol) ∧
     fifoReduce q.long (recordTrade SIDE_ASK price v q).long ∧
     ((recordTrade SIDE_ASK price v q).short = q.short ∨
       ∃ r, 0 < r ∧ r ≤ v ∧
         (recordTrade SIDE_ASK price v q).short = q.short ++ [⟨price, r⟩] ∧
         (recordTrade SIDE_ASK price v q).long = [])) := by
  constructor
  · obtain ⟨q2, r, heq⟩ : ∃ q2 r, offsetFifo q.short v = (q2, r) := ⟨_, _, rfl⟩
    obtain ⟨hsum, hr0, hrv, hpos, hemp⟩ := offsetFifo_spec q.short v (le_of_lt hv) hs q2 r heq
    have hred : recordTrade SIDE_BID price v q =
        ⟨if 0 < r then q.long ++ [⟨price, r⟩] else q.long, q2⟩ := by
      simp +decide [recordTrade, heq]
    have hlong : (recordTrade SIDE_BID price v q).long =
        if 0 < r then q.long ++ [⟨price, r⟩] else q.long := by rw [hred]
    have hshort : (recordTrade SIDE_BID price v q).short = q2 := by rw [hred]
    obtain ⟨_, hposL, hposS⟩ := recordTrade_effect SIDE_BID price v q hv hl hs
    refine ⟨hposL, hposS, ?_, ?_⟩
    · rw [hshort]
      exact offsetFifo_fifo q.short v q2 r heq
    · rw [hlong, hshort]
      by_cases hr : 0 < r
      · exact Or.inr ⟨r, hr, hrv, by rw [if_pos hr], hemp hr⟩
      · exact Or.inl (by rw [if_neg hr])
  · obtain ⟨q2, r, heq⟩ : ∃ q2 r, offsetFifo q.long v = (q2, r) := ⟨_, _, rfl⟩
    obtain ⟨hsum, hr0, hrv, hpos, hemp⟩ := offsetFifo_spec q.long v (le_of_lt hv) hl q2 r heq
    have hred : recordTrade SIDE_ASK price v q =
        ⟨q2, if 0 < r then q.short ++ [⟨price, r⟩] else q.short⟩ := by
      simp +decide [recordTrade, heq]
    have hlong : (recordTrade SIDE_ASK price v q).long = q2 := by rw [hred]
    have hshort : (recordTrade SIDE_ASK price v q).short =
        if 0 < r then q.short ++ [⟨price, r⟩] else q.short := by rw [hred]
    obtain ⟨_, hposL, hposS⟩ := recordTrade_effect SIDE_ASK price v q hv hl hs
    refine ⟨hposL, hposS, ?_, ?_⟩
    · rw [hlong]
      exact offsetFifo_fifo q.long v q2 r heq
    · rw [hlong, hshort]
      by_cases hr : 0 < r
      · exact Or.inr ⟨r, hr, hrv, by rw [if_pos hr], hemp hr⟩
      · exact Or.inl (by rw [if_neg hr])

/-- Witness for C4 at a concrete state: a buy of 3 against short lots of
volumes 2 and 5. -/
theorem record_trade_fifo_witness :
    ((0:Int) < 3 ∧ (∀ l ∈ (⟨[⟨10, 4⟩], [⟨9, 2⟩, ⟨11, 5⟩]⟩ : InstrQueues).long, 0 < l.vol) ∧
      (∀ l ∈ (⟨[⟨10, 4⟩], [⟨9, 2⟩, ⟨11, 5⟩]⟩ : InstrQueues).short, 0 < l.vol)) ∧
    (((∀ l ∈ (recordTrade SIDE_BID 12 3 ⟨[⟨10, 4⟩], [⟨9, 2⟩, ⟨11, 5⟩]⟩).long, 0 < l.vol) ∧
     (∀ l ∈ (recordTrade SIDE_BID 12 3 ⟨[⟨10, 4⟩], [⟨9, 2⟩, ⟨11, 5⟩]⟩).short, 0 < l.vol) ∧
     fifoReduce [⟨9, 2⟩, ⟨11, 5⟩]
       (recordTrade SIDE_BID 12 3 ⟨[⟨10, 4⟩], [⟨9, 2⟩, ⟨11, 5⟩]⟩).short ∧
     ((recordTrade SIDE_BID 12 3 ⟨[⟨10, 4⟩], [⟨9, 2⟩, ⟨11, 5⟩]⟩).long = [⟨10, 4⟩] ∨
       ∃ r, 0 < r ∧ r ≤ 3 ∧
         (recordTrade SIDE_BID 12 3 ⟨[⟨10, 4⟩], [⟨9, 2⟩, ⟨11, 5⟩]⟩).long =
           [⟨10, 4⟩] ++ [⟨12, r⟩] ∧
         (recordTrade SIDE_BID 12 3 ⟨[⟨10, 4⟩], [⟨9, 2⟩, ⟨11, 5⟩]⟩).short = [])) ∧
    ((∀ l ∈ (recordTrade SIDE_ASK 12 3 ⟨[⟨10, 4⟩], [⟨9, 2⟩, ⟨11, 5⟩]⟩).long, 0 < l.vol) ∧
     (∀ l ∈ (recordTrade SIDE_ASK 12 3 ⟨[⟨10, 4⟩], [⟨9, 2⟩, ⟨11, 5⟩]⟩).short, 0 < l.vol) ∧
     fifoReduce [⟨10, 4⟩]
       (recordTrade SIDE_ASK 12 3 ⟨[⟨10, 4⟩], [⟨9, 2⟩, ⟨11, 5⟩]⟩).long ∧
     ((recordTrade SIDE_ASK 12 3 ⟨[⟨10, 4⟩], [⟨9, 2⟩, ⟨11, 5⟩]⟩).short = [⟨9, 2⟩, ⟨11, 5⟩] ∨
       ∃ r, 0 < r ∧ r ≤ 3 ∧
         (recordTrade SIDE_ASK 12 3 ⟨[⟨10, 4⟩], [⟨9, 2⟩, ⟨11, 5⟩]⟩).short =
           [⟨9, 2⟩, ⟨11, 5⟩] ++ [⟨12, r⟩] ∧
         (recordTrade SIDE_ASK 12 3 ⟨[⟨10, 4⟩], [⟨9, 2⟩, ⟨11, 5⟩]⟩).long = []))) :=
  ⟨⟨by norm_num, by intro l hl2; fin_cases hl2 <;> norm_num,
      by intro l hl2; fin_cases hl2 <;> norm_num⟩,
    record_trade_fifo 12 3 ⟨[⟨10, 4⟩], [⟨9, 2⟩, ⟨11, 5⟩]⟩ (by norm_num)
      (by intro l hl2; fin_cases hl2 <;> norm_num)
      (by intro l hl2; fin_cases hl2 <;> norm_num)⟩

/-- C10: record_trade called with non-positive volume, or with a side that is
neither buy nor sell, leaves the position queues of every instrument
unchanged. -/
theorem record_trade_invalid_noop (L : Ledger) (i : Instrument) (side : String)
    (price : ℚ) (v : Int) (h : v ≤ 0 ∨ (side ≠ SIDE_BID ∧ side ≠ SIDE_ASK)) :
    record_trade L i side price v = L := by
  have hq : recordTrade side price v (L.get i) = L.get i := by
    rcases h with h | ⟨h1, h2⟩
    · exact recordTrade_nonpos _ _ _ _ h
    · exact recordTrade_other _ _ _ _ h1 h2
  rw [record_trade, hq, Ledger.set_get]

/-- Witness for C10: a buy of volume -3 changes nothing. -/
theorem record_trade_invalid_noop_witness :
    ((-3 : Int) ≤ 0 ∨ (SIDE_BID ≠ SIDE_BID ∧ SIDE_BID ≠ SIDE_ASK)) ∧
    record_trade emptyLedger Instrument.asml SIDE_BID 10 (-3) = emptyLedger :=
  ⟨Or.inl (by norm_num),
    record_trade_invalid_noop emptyLedger Instrument.asml SIDE_BID 10 (-3)
      (Or.inl (by norm_num))⟩

/-- C6 counterexample: risk_allowed is not monotone in the absolute net
position for a fixed direction: positions 100 and -200 have increasing
absolute value yet the buy allowance grows from 650 to 950. -/
theorem risk_allowed_not_abs_monotone :
    |(100 : Int)| ≤ |(-200 : Int)| ∧
    risk_allowed (posOf Instrument.etf_us 100) Instrument.etf_us SIDE_BID <
      risk_allowed (posOf Instrument.etf_us (-200)) Instrument.etf_us SIDE_BID := by
  constructor
  · norm_num
  · norm_num +decide [risk_allowed, posOf, MAX_POSITION]

/-- C6 amended: with the fixed cap, risk_allowed is monotone in the
direction-signed net position (non-increasing in the net position for buying,
non-decreasing for selling) and never negative for any side. -/
theorem risk_allowed_monotone_directional :
    (∀ (p q : Positions) (i : Instrument), p i ≤ q i →
      risk_allowed q i SIDE_BID ≤ risk_allowed p i SIDE_BID ∧
      risk_allowed p i SIDE_ASK ≤ risk_allowed q i SIDE_ASK) ∧
    (∀ (p : Positions) (i : Instrument) (side : String), 0 ≤ risk_allowed p i side) := by
  constructor
  · intro p q i hpq
    constructor
    · simp +decide [risk_allowed]
      omega
    · simp +decide [risk_allowed]
      omega
  · intro p i side
    simp only [risk_allowed]
    exact le_max_right _ _

/-- Witness for the amended C6 at positions 100 and 200. -/
theorem risk_allowed_monotone_directional_witness :
    (posOf Instrument.etf_us 100) Instrument.etf_us ≤
      (posOf Instrument.etf_us 200) Instrument.etf_us ∧
    (risk_allowed (posOf Instrument.etf_us 200) Instrument.etf_us SIDE_BID ≤
       risk_allowed (posOf Instrument.etf_us 100) Instrument.etf_us SIDE_BID ∧
     risk_allowed (posOf Instrument.etf_us 100) Instrument.etf_us SIDE_ASK ≤
       risk_allowed (posOf Instrument.etf_us 200) Instrument.etf_us SIDE_ASK) :=
  ⟨by norm_num [posOf],
    risk_allowed_monotone_directional.1 (posOf Instrument.etf_us 100)
      (posOf Instrument.etf_us 200) Instrument.etf_us (by norm_num [posOf])⟩

theorem calibrateLong_idem (b thr : ℚ) (q : List Lot) :
    calibrateLong b thr (calibrateLong b thr q).1 = ((calibrateLong b thr q).1, []) := by
  induction q with
  | nil => rfl
  | cons lot rest ih =>
    by_cases h : b > lot.price + thr
    · simp only [calibrateLong, if_pos h]
      exact ih
    · simp only [calibrateLong, if_neg h]

theorem calibrateShort_idem (a thr : ℚ) (q : List Lot) :
    calibrateShort a thr (calibrateShort a thr q).1 = ((calibrateShort a thr q).1, []) := by
  induction q with
  | nil => rfl
  | cons lot rest ih =>
    by_cases h : a < lot.price - thr
    · simp only [calibrateShort, if_pos h]
      exact ih
    · simp only [calibrateShort, if_neg h]

theorem autoCalibrateInstr_idem (i : Instrument) (pb? : Option PriceBook) (thr : ℚ)
    (q : InstrQueues) :
    autoCalibrateInstr i pb? thr (autoCalibrateInstr i pb? thr q).1 =
      ((autoCalibrateInstr i pb? thr q).1, []) := by
  cases pb? with
  | none => rfl
  | some pb =>
    cases hb : pb.bids with
    | nil =>
      cases ha : pb.asks with
      | nil => simp only [autoCalibrateInstr, hb, ha, List.append_nil]
      | cons a rest =>
        simp only [autoCalibrateInstr, hb, ha, calibrateShort_idem, List.map_nil,
          List.nil_append]
    | cons b rest =>
      cases ha : pb.asks with
      | nil =>
        simp only [autoCalibrateInstr, hb, ha, calibrateLong_idem, List.map_nil,
          List.append_nil]
      | cons a rest2 =>
        simp only [autoCalibrateInstr, hb, ha, calibrateLong_idem, calibrateShort_idem,
          List.map_nil, List.append_nil]

/-- C9: auto-calibration is idempotent: with identical books, positions and
threshold (no market movement), a second run directly after a first one issues
zero orders and removes zero lots. -/
theorem auto_calibrate_idempotent (books : Books) (pos : Positions) (L : Ledger) :
    (auto_calibrate_positions books pos (auto_calibrate_positions books pos L).1).2 = [] ∧
    (auto_calibrate_positions books pos (auto_calibrate_positions books pos L).1).1 =
      (auto_calibrate_positions books pos L).1 := by
  constructor
  · simp only [auto_calibrate_positions, autoCalibrateInstr_idem, List.append_nil]
  · simp only [auto_calibrate_positions, autoCalibrateInstr_idem]

theorem hedgeAbort_guard (books : Books) (h : hedgeAbort books) :
    hedgeBooksMissing books = true ∨ hedgeSidesEmpty books = true := by
  rcases h with h | h | h | h | h | h | h | h | h | h | h | h
  · exact Or.inl (by simp [hedgeBooksMissing, h])
  · exact Or.inl (by simp [hedgeBooksMissing, h])
  · exact Or.inl (by simp [hedgeBooksMissing, h])
  · exact Or.inl (by simp [hedgeBooksMissing, h])
  · cases hx : books Instrument.etf_us with
    | none => exact Or.inl (by simp [hedgeBooksMissing, hx])
    | some pb =>
      rw [hx] at h
      simp only [Option.getD_some] at h
      exact Or.inr (by simp [hedgeSidesEmpty, hx, h])
  · cases hx : books Instrument.etf_us with
    | none => exact Or.inl (by simp [hedgeBooksMissing, hx])
    | some pb =>
      rw [hx] at h
      simp only [Option.getD_some] at h
      exact Or.inr (by simp [hedgeSidesEmpty, hx, h])
  · cases hx : books Instrument.asml with
    | none => exact Or.inl (by simp [hedgeBooksMissing, hx])
    | some pb =>
      rw [hx] at h
      simp only [Option.getD_some] at h
      exact Or.inr (by simp [hedgeSidesEmpty, hx, h])
  · cases hx : books Instrument.asml with
    | none => exact Or.inl (by simp [hedgeBooksMissing, hx])
    | some pb =>
      rw [hx] at h
      simp only [Option.getD_some] at h
      exact Or.inr (by simp [hedgeSidesEmpty, hx, h])
  · cases hx : books Instrument.amd with
    | none => exact Or.inl (by simp [hedgeBooksMissing, hx])
    | some pb =>
      rw [hx] at h
      simp only [Option.getD_some] at h
      exact Or.inr (by simp [hedgeSidesEmpty, hx, h])
  · cases hx : books Instrument.amd with
    | none => exact Or.inl (by simp [hedgeBooksMissing, hx])
    | some pb =>
      rw [hx] at h
      simp only [Option.getD_some] at h
      exact Or.inr (by simp [hedgeSidesEmpty, hx, h])
  · cases hx : books Instrument.nvda with
    | none => exact Or.inl (by simp [hedgeBooksMissing, hx])
    | some pb =>
      rw [hx] at h
      simp only [Option.getD_some] at h
      exact Or.inr (by simp [hedgeSidesEmpty, hx, h])
  · cases hx : books Instrument.nvda with
    | none => exact Or.inl (by simp [hedgeBooksMissing, hx])
    | some pb =>
      rw [hx] at h
      simp only [Option.getD_some] at h
      exact Or.inr (by simp [hedgeSidesEmpty, hx, h])

theorem hedge_abort_eval (books : Books) (pos : Positions) (c0 : PriceCache) (L : Ledger)
    (h : hedgeAbort books) :
    (hedge_basket_strategy books pos c0 L).2.1 = [] ∧
    (hedge_basket_strategy books pos c0 L).2.2 = L := by
  rcases hedgeAbort_guard books h with hg | hg
  · simp only [hedge_basket_strategy, hg, if_true]
    exact ⟨trivial, trivial⟩
  · by_cases h1 : hedgeBooksMissing books = true
    · simp only [hedge_basket_strategy, h1, if_true]
      exact ⟨trivial, trivial⟩
    · have h1f : hedgeBooksMissing books = false := by
        revert h1
        cases hedgeBooksMissing books
        · intro _; rfl
        · intro h1; exact absurd rfl h1
      simp only [hedge_basket_strategy, h1f, Bool.false_eq_true, if_false, hg, if_true]
      exact ⟨trivial, trivial⟩

theorem arbitrage_guard_false (books : Books) (h : arbAbort books) :
    (is_up (books Instrument.etf_us) && is_up (books Instrument.etf_eu)) = false := by
  rcases h with h | h | h | h | h | h
  · simp [is_up, h]
  · simp [is_up, h]
  · cases hx : books Instrument.etf_us with
    | none => simp [is_up, hx]
    | some pb =>
      rw [hx] at h
      simp only [Option.getD_some] at h
      simp [is_up, hx, h]
  · cases hx : books Instrument.etf_us with
    | none => simp [is_up, hx]
    | some pb =>
      rw [hx] at h
      simp only [Option.getD_some] at h
      simp [is_up, hx, h]
  · cases hx : books Instrument.etf_eu with
    | none => simp [is_up, hx]
    | some pb =>
      rw [hx] at h
      simp only [Option.getD_some] at h
      simp [is_up, hx, h]
  · cases hx : books Instrument.etf_eu with
    | none => simp [is_up, hx]
    | some pb =>
      rw [hx] at h
      simp only [Option.getD_some] at h
      simp [is_up, hx, h]

theorem arbitrage_abort (books : Books) (pos : Positions) (L : Ledger) (th : ℚ)
    (h : arbAbort books) : arbitrage_strategy books pos L th = ([], L) := by
  have hg := arbitrage_guard_false books h
  simp only [arbitrage_strategy, hg, Bool.not_false, if_true]

theorem reverse_arbitrage_abort (books : Books) (pos : Positions) (L : Ledger) (th : ℚ)
    (h : arbAbort books) : reverse_arbitrage_strategy books pos L th = ([], L) := by
  have hg := arbitrage_guard_false books h
  simp only [reverse_arbitrage_strategy, hg, Bool.not_false, if_true]

theorem autoCalib_emptyBids (i : Instrument) (pb : PriceBook) (thr : ℚ) (q : InstrQueues)
    (hb : pb.bids = []) :
    (autoCalibrateInstr i (some pb) thr q).1.long = q.long ∧
    ∀ o ∈ (autoCalibrateInstr i (some pb) thr q).2, o.side = SIDE_BID := by
  cases ha : pb.asks with
  | nil =>
    simp only [autoCalibrateInstr, hb, ha, List.append_nil]
    refine ⟨by trivial, ?_⟩
    intro o ho
    simp at ho
  | cons a rest =>
    simp only [autoCalibrateInstr, hb, ha, List.nil_append]
    refine ⟨by trivial, ?_⟩
    intro o ho
    simp only [List.mem_map] at ho
    obtain ⟨u, _, rfl⟩ := ho
    rfl

theorem autoCalib_emptyAsks (i : Instrument) (pb : PriceBook) (thr : ℚ) (q : InstrQueues)
    (ha : pb.asks = []) :
    (autoCalibrateInstr i (some pb) thr q).1.short = q.short ∧
    ∀ o ∈ (autoCalibrateInstr i (some pb) thr q).2, o.side = SIDE_ASK := by
  cases hb : pb.bids with
  | nil =>
    simp only [autoCalibrateInstr, hb, ha, List.append_nil]
    refine ⟨by trivial, ?_⟩
    intro o ho
    simp at ho
  | cons b rest =>
    simp only [autoCalibrateInstr, hb, ha, List.append_nil]
    refine ⟨by trivial, ?_⟩
    intro o ho
    simp only [List.mem_map] at ho
    obtain ⟨u, _, rfl⟩ := ho
    rfl

/-- C8 counterexample: auto-calibration does not abort on an empty needed
side or a missing book.  With open long lots (so bids are a needed side) but
empty bids, it still issues a buy order of 3 and removes the short lot of
that very instrument; and with the AMD book entirely missing, the strategy
still runs for the tick and issues a sell order on ASML. -/
theorem auto_calibrate_empty_side_still_trades :
    (autoCalibrateInstr Instrument.amd (some ⟨[], [⟨1, 1⟩]⟩) GRID_THRESHOLD
        ⟨[⟨5, 2⟩], [⟨6, 3⟩]⟩).2 = [⟨Instrument.amd, 1, 3, SIDE_BID⟩] ∧
    (autoCalibrateInstr Instrument.amd (some ⟨[], [⟨1, 1⟩]⟩) GRID_THRESHOLD
        ⟨[⟨5, 2⟩], [⟨6, 3⟩]⟩).1.short = [] ∧
    c8Books Instrument.amd = none ∧
    (auto_calibrate_positions c8Books zeroPos c8Ledger).2 =
      [⟨Instrument.asml, 10, 2, SIDE_ASK⟩] := by
  refine ⟨?_, ?_, rfl, ?_⟩ <;>
    norm_num +decide [autoCalibrateInstr, calibrateLong, calibrateShort, GRID_THRESHOLD,
      auto_calibrate_positions, get_dynamic_grid_threshold, basket_total, zeroPos,
      c8Books, c8Ledger, emptyQueues]

/-- C8 amended: the hedge and both arbitrage directions abort for the tick on
a missing needed book or an empty needed side (no orders, ledger unchanged);
auto-calibration instead degrades per instrument and per side: a missing book
skips that instrument (queues unchanged, no orders for it), empty bids leave
the long queue untouched and allow only buy-side orders, and empty asks leave
the short queue untouched and allow only sell-side orders, while the present
side is still processed. -/
theorem strategy_missing_data_abort
    (books books2 : Books) (pos pos2 : Positions) (c0 : PriceCache) (L L2 : Ledger)
    (th thr : ℚ) (i : Instrument) (pb2 pb3 : PriceBook) (q : InstrQueues)
    (h1 : hedgeAbort books) (h2 : arbAbort books2)
    (hb2 : pb2.bids = []) (ha3 : pb3.asks = []) :
    (hedge_basket_strategy books pos c0 L).2.1 = [] ∧
    (hedge_basket_strategy books pos c0 L).2.2 = L ∧
    arbitrage_strategy books2 pos2 L2 th = ([], L2) ∧
    reverse_arbitrage_strategy books2 pos2 L2 th = ([], L2) ∧
    autoCalibrateInstr i none thr q = (q, []) ∧
    (autoCalibrateInstr i (some pb2) thr q).1.long = q.long ∧
    (∀ o ∈ (autoCalibrateInstr i (some pb2) thr q).2, o.side = SIDE_BID) ∧
    (autoCalibrateInstr i (some pb3) thr q).1.short = q.short ∧
    (∀ o ∈ (autoCalibrateInstr i (some pb3) thr q).2, o.side = SIDE_ASK) :=
  ⟨(hedge_abort_eval books pos c0 L h1).1, (hedge_abort_eval books pos c0 L h1).2,
    arbitrage_abort books2 pos2 L2 th h2, reverse_arbitrage_abort books2 pos2 L2 th h2,
    rfl, (autoCalib_emptyBids i pb2 thr q hb2).1, (autoCalib_emptyBids i pb2 thr q hb2).2,
    (autoCalib_emptyAsks i pb3 thr q ha3).1, (autoCalib_emptyAsks i pb3 thr q ha3).2⟩

/-- Witness for C8: all books absent, a book with empty bids, a book with
empty asks, and a state with one long and one short lot. -/
theorem strategy_missing_data_abort_witness :
    (hedgeAbort noneBooks ∧ arbAbort noneBooks ∧
      (⟨[], [⟨1, 1⟩]⟩ : PriceBook).bids = [] ∧ (⟨[⟨1, 1⟩], []⟩ : PriceBook).asks = []) ∧
    ((hedge_basket_strategy noneBooks zeroPos zeroCache emptyLedger).2.1 = [] ∧
     (hedge_basket_strategy noneBooks zeroPos zeroCache emptyLedger).2.2 = emptyLedger ∧
     arbitrage_strategy noneBooks zeroPos emptyLedger THRESHOLD = ([], emptyLedger) ∧
     reverse_arbitrage_strategy noneBooks zeroPos emptyLedger THRESHOLD =
       ([], emptyLedger) ∧
     autoCalibrateInstr Instrument.amd none GRID_THRESHOLD ⟨[⟨5, 2⟩], [⟨6, 3⟩]⟩ =
       (⟨[⟨5, 2⟩], [⟨6, 3⟩]⟩, []) ∧
     (autoCalibrateInstr Instrument.amd (some ⟨[], [⟨1, 1⟩]⟩) GRID_THRESHOLD
         ⟨[⟨5, 2⟩], [⟨6, 3⟩]⟩).1.long = (⟨[⟨5, 2⟩], [⟨6, 3⟩]⟩ : InstrQueues).long ∧
     (∀ o ∈ (autoCalibrateInstr Instrument.amd (some ⟨[], [⟨1, 1⟩]⟩) GRID_THRESHOLD
         ⟨[⟨5, 2⟩], [⟨6, 3⟩]⟩).2, o.side = SIDE_BID) ∧
     (autoCalibrateInstr Instrument.amd (some ⟨[⟨1, 1⟩], []⟩) GRID_THRESHOLD
         ⟨[⟨5, 2⟩], [⟨6, 3⟩]⟩).1.short = (⟨[⟨5, 2⟩], [⟨6, 3⟩]⟩ : InstrQueues).short ∧
     (∀ o ∈ (autoCalibrateInstr Instrument.amd (some ⟨[⟨1, 1⟩], []⟩) GRID_THRESHOLD
         ⟨[⟨5, 2⟩], [⟨6, 3⟩]⟩).2, o.side = SIDE_ASK)) :=
  ⟨⟨Or.inl rfl, Or.inl rfl, rfl, rfl⟩,
    strategy_missing_data_abort noneBooks noneBooks zeroPos zeroPos zeroCache emptyLedger
      emptyLedger THRESHOLD GRID_THRESHOLD Instrument.amd ⟨[], [⟨1, 1⟩]⟩ ⟨[⟨1, 1⟩], []⟩
      ⟨[⟨5, 2⟩], [⟨6, 3⟩]⟩ (Or.inl rfl) (Or.inl rfl) rfl rfl⟩

theorem guardTimer_sound (f : Nat → GuardObs) :
    ∀ (n : Nat) (s : ℚ), guardTimerAt f n = some s →
      ∃ j, j < n ∧ s = (f j).now ∧
        ∀ k, j ≤ k → k < n →
          ¬(-250 ≤ basket_total (f k).pos ∧ basket_total (f k).pos ≤ 250) := by
  intro n
  induction n with
  | zero => intro s hs; simp [guardTimerAt] at hs
  | succ n ih =>
    intro s hs
    rw [guardTimerAt, check_and_correct_basket_limit.eq_def] at hs
    by_cases hband : -250 ≤ basket_total (f n).pos ∧ basket_total (f n).pos ≤ 250
    · rw [if_pos hband] at hs
      simp at hs
    · rw [if_neg hband] at hs
      cases htm : guardTimerAt f n with
      | none =>
        rw [htm] at hs
        simp at hs
        refine ⟨n, Nat.lt_succ_self n, hs.symm, ?_⟩
        intro k hk1 hk2
        have hkn : k = n := by omega
        rw [hkn]
        exact hband
      | some s0 =>
        rw [htm] at hs
        dsimp only at hs
        by_cases hel : (f n).now - s0 > 5 / 2
        · rw [if_pos hel] at hs
          simp at hs
        · rw [if_neg hel] at hs
          simp at hs
          obtain ⟨j, hj, hje, hout⟩ := ih s0 htm
          refine ⟨j, Nat.lt_succ_of_lt hj, by rw [← hs]; exact hje, ?_⟩
          intro k hk1 hk2
          rcases (by omega : k < n ∨ k = n) with hlt | heqk
          · exact hout k hk1 hlt
          · rw [heqk]
            exact hband

theorem guardFired_sound (f : Nat → GuardObs) (n : Nat) (h : guardFiredAt f n = true) :
    ∃ j, j < n ∧ (f n).now - (f j).now > 5 / 2 ∧
      ∀ k, j ≤ k → k ≤ n →
        ¬(-250 ≤ basket_total (f k).pos ∧ basket_total (f k).pos ≤ 250) := by
  rw [guardFiredAt, check_and_correct_basket_limit.eq_def] at h
  by_cases hband : -250 ≤ basket_total (f n).pos ∧ basket_total (f n).pos ≤ 250
  · rw [if_pos hband] at h
    simp at h
  · rw [if_neg hband] at h
    cases htm : guardTimerAt f n with
    | none =>
      rw [htm] at h
      simp at h
    | some s0 =>
      rw [htm] at h
      dsimp only at h
      by_cases hel : (f n).now - s0 > 5 / 2
      · obtain ⟨j, hj, hje, hout⟩ := guardTimer_sound f n s0 htm
        refine ⟨j, hj, by rw [← hje]; exact hel, ?_⟩
        intro k hk1 hk2
        rcases (by omega : k < n ∨ k = n) with hlt | heqk
        · exact hout k hk1 hlt
        · rw [heqk]
          exact hband
      · rw [if_neg hel] at h
        simp at h

theorem guardOrders_fired (f : Nat → GuardObs) (n : Nat) (h : guardOrdersAt f n ≠ []) :
    guardFiredAt f n = true := by
  rw [guardOrdersAt, check_and_correct_basket_limit.eq_def] at h
  rw [guardFiredAt, check_and_correct_basket_limit.eq_def]
  by_cases hband : -250 ≤ basket_total (f n).pos ∧ basket_total (f n).pos ≤ 250
  · rw [if_pos hband] at h
    simp at h
  · rw [if_neg hband] at h
    rw [if_neg hband]
    cases htm : guardTimerAt f n with
    | none =>
      rw [htm] at h
      simp at h
    | some s0 =>
      rw [htm] at h
      dsimp only at h ⊢
      by_cases hel : (f n).now - s0 > 5 / 2
      · rw [if_pos hel]
      · rw [if_neg hel] at h
        simp at h

/-- C5: the basket guard never issues a corrective order unless the breach
started at an earlier check more than 2.5 seconds before and every check since
then saw the exposure outside the soft band; any check inside the soft band
clears the breach timer; and in the scenario of a 2.4 second breach, recovery,
and another 2.4 second breach, the correction branch never fires and no order
is ever issued. -/
theorem basket_guard_persistence :
    (∀ (f : Nat → GuardObs) (n : Nat), guardOrdersAt f n ≠ [] →
      ∃ j, j < n ∧ (f n).now - (f j).now > 5 / 2 ∧
        ∀ k, j ≤ k → k ≤ n →
          ¬(-250 ≤ basket_total (f k).pos ∧ basket_total (f k).pos ≤ 250)) ∧
    (∀ (timer : Option ℚ) (now : ℚ) (pos : Positions) (books : Books),
      -250 ≤ basket_total pos → basket_total pos ≤ 250 →
      (check_and_correct_basket_limit timer now pos books).1 = none) ∧
    ((guardFiredAt scObs 0 = false ∧ guardFiredAt scObs 1 = false ∧
      guardFiredAt scObs 2 = false ∧ guardFiredAt scObs 3 = false ∧
      guardFiredAt scObs 4 = false ∧ guardFiredAt scObs 5 = false ∧
      guardFiredAt scObs 6 = false) ∧
     (guardOrdersAt scObs 0 = [] ∧ guardOrdersAt scObs 1 = [] ∧
      guardOrdersAt scObs 2 = [] ∧ guardOrdersAt scObs 3 = [] ∧
      guardOrdersAt scObs 4 = [] ∧ guardOrdersAt scObs 5 = [] ∧
      guardOrdersAt scObs 6 = [])) := by
  refine ⟨fun f n h => guardFired_sound f n (guardOrders_fired f n h), ?_, ?_⟩
  · intro timer now pos books h1 h2
    rw [check_and_correct_basket_limit.eq_def, if_pos ⟨h1, h2⟩]
  · constructor
    · norm_num +decide [guardFiredAt, guardTimerAt, check_and_correct_basket_limit,
        basket_total, scObs, zeroPos, posOf, c2Books, List.getD]
    · norm_num +decide [guardOrdersAt, guardTimerAt, check_and_correct_basket_limit,
        basket_total, scObs, zeroPos, posOf, c2Books, List.getD]

/-- Witness for C5: the run that breaches at time 0 and is next checked at
time 3 issues orders at step 1, so the persistence conclusion holds there; the
timer-clearing clause applied to in-band positions at time 7. -/
theorem basket_guard_persistence_witness :
    (guardOrdersAt fireTrace 1 ≠ [] ∧
      -250 ≤ basket_total zeroPos ∧ basket_total zeroPos ≤ 250) ∧
    (∃ j, j < 1 ∧ (fireTrace 1).now - (fireTrace j).now > 5 / 2 ∧
      ∀ k, j ≤ k → k ≤ 1 →
        ¬(-250 ≤ basket_total (fireTrace k).pos ∧ basket_total (fireTrace k).pos ≤ 250)) ∧
    (check_and_correct_basket_limit (some 0) 7 zeroPos c2Books).1 = none := by
  have h1 : guardOrdersAt fireTrace 1 ≠ [] := by
    norm_num +decide [guardOrdersAt, guardTimerAt, check_and_correct_basket_limit,
      basket_total, fireTrace, posOf, c2Books, basketCorrectionOrders, INSTRUMENT_IDS,
      List.filterMap]
  refine ⟨⟨h1, by norm_num [basket_total, zeroPos], by norm_num [basket_total, zeroPos]⟩,
    basket_guard_persistence.1 fireTrace 1 h1,
    basket_guard_persistence.2.1 (some 0) 7 zeroPos c2Books
      (by norm_num [basket_total, zeroPos]) (by norm_num [basket_total, zeroPos])⟩

theorem isEmpty_false_of_ne_nil {α : Type} (l : List α) (h : l ≠ []) :
    l.isEmpty = false := by
  cases l with
  | nil => exact absurd rfl h
  | cons a t => rfl

theorem is_up_true (pb? : Option PriceBook) (h : is_up pb? = true) :
    ∃ pb, pb? = some pb ∧ pb.bids ≠ [] ∧ pb.asks ≠ [] := by
  cases pb? with
  | none => simp [is_up] at h
  | some pb =>
    simp only [is_up] at h
    refine ⟨pb, rfl, ?_, ?_⟩
    · intro hnil
      rw [hnil] at h
      simp at h
    · intro hnil
      rw [hnil] at h
      simp at h

/-- C7: forward arbitrage fires only when the US bid strictly exceeds the EU
ask plus the threshold, every order volume is bounded by both touch volumes
and both risk allowances, and in the concrete scenario (US bid 100.10, EU ask
100.00, threshold 0.05, touch volumes 50 and 50, risk allowance 1000 on both
legs) it sells 50 US at 100.10, buys 50 EU at 100.00, and the previously
empty ledger shows short lot (100.10, 50) on US and long lot (100.00, 50) on
EU. -/
theorem arbitrage_fires_strictly :
    (∀ (books : Books) (pos : Positions) (L : Ledger) (th : ℚ),
      (arbitrage_strategy books pos L th).1 ≠ [] →
      ∃ us eu, books Instrument.etf_us = some us ∧ books Instrument.etf_eu = some eu ∧
        us.bids ≠ [] ∧ eu.asks ≠ [] ∧
        (headPL us.bids).price > (headPL eu.asks).price + th ∧
        ∀ o ∈ (arbitrage_strategy books pos L th).1,
          o.volume ≤ (headPL us.bids).volume ∧ o.volume ≤ (headPL eu.asks).volume ∧
          o.volume ≤ risk_allowed pos Instrument.etf_us SIDE_ASK ∧
          o.volume ≤ risk_allowed pos Instrument.etf_eu SIDE_BID) ∧
    ((arbitrage_strategy c7Books c7Pos emptyLedger THRESHOLD).1 =
      [⟨Instrument.etf_us, 1001 / 10, 50, SIDE_ASK⟩,
       ⟨Instrument.etf_eu, 100, 50, SIDE_BID⟩] ∧
     risk_allowed c7Pos Instrument.etf_us SIDE_ASK = 1000 ∧
     risk_allowed c7Pos Instrument.etf_eu SIDE_BID = 1000 ∧
     (arbitrage_strategy c7Books c7Pos emptyLedger THRESHOLD).2.get Instrument.etf_us =
       ⟨[], [⟨1001 / 10, 50⟩]⟩ ∧
     (arbitrage_strategy c7Books c7Pos emptyLedger THRESHOLD).2.get Instrument.etf_eu =
       ⟨[⟨100, 50⟩], []⟩) := by
  constructor
  · intro books pos L th h
    cases hg : (is_up (books Instrument.etf_us) && is_up (books Instrument.etf_eu)) with
    | false =>
      exfalso
      apply h
      simp only [arbitrage_strategy, hg, Bool.not_false, if_true]
    | true =>
      have hus := ((Bool.and_eq_true _ _).mp hg).1
      have heu := ((Bool.and_eq_true _ _).mp hg).2
      obtain ⟨us, husb, husbids, husasks⟩ := is_up_true _ hus
      obtain ⟨eu, heub, heubids, heuasks⟩ := is_up_true _ heu
      have harb : arbitrage_strategy books pos L th =
          if (headPL us.bids).price > (headPL eu.asks).price + th then
            if 0 < min (min (min (headPL us.bids).volume (headPL eu.asks).volume)
                (risk_allowed pos Instrument.etf_us SIDE_ASK))
                (risk_allowed pos Instrument.etf_eu SIDE_BID) then
              ([⟨Instrument.etf_us, (headPL us.bids).price,
                  min (min (min (headPL us.bids).volume (headPL eu.asks).volume)
                    (risk_allowed pos Instrument.etf_us SIDE_ASK))
                    (risk_allowed pos Instrument.etf_eu SIDE_BID), SIDE_ASK⟩,
                ⟨Instrument.etf_eu, (headPL eu.asks).price,
                  min (min (min (headPL us.bids).volume (headPL eu.asks).volume)
                    (risk_allowed pos Instrument.etf_us SIDE_ASK))
                    (risk_allowed pos Instrument.etf_eu SIDE_BID), SIDE_BID⟩],
               record_trade
                 (record_trade L Instrument.etf_us SIDE_ASK (headPL us.bids).price
                   (min (min (min (headPL us.bids).volume (headPL eu.asks).volume)
                     (risk_allowed pos Instrument.etf_us SIDE_ASK))
                     (risk_allowed pos Instrument.etf_eu SIDE_BID)))
                 Instrument.etf_eu SIDE_BID (headPL eu.asks).price
                 (min (min (min (headPL us.bids).volume (headPL eu.asks).volume)
                   (risk_allowed pos Instrument.etf_us SIDE_ASK))
                   (risk_allowed pos Instrument.etf_eu SIDE_BID)))
            else ([], L)
          else ([], L) := by
        rw [husb] at hus
        rw [heub] at heu
        simp only [arbitrage_strategy, husb, heub, hus, heu, Bool.and_self, Bool.not_true,
          Bool.false_eq_true, if_false, Option.getD_some, isEmpty_false_of_ne_nil _ husbids,
          isEmpty_false_of_ne_nil _ heuasks, Bool.or_self, Bool.false_or, Bool.or_false]
      by_cases hc : (headPL us.bids).price > (headPL eu.asks).price + th
      · by_cases hv : 0 < min (min (min (headPL us.bids).volume (headPL eu.asks).volume)
            (risk_allowed pos Instrument.etf_us SIDE_ASK))
            (risk_allowed pos Instrument.etf_eu SIDE_BID)
        · refine ⟨us, eu, husb, heub, husbids, heuasks, hc, ?_⟩
          intro o ho
          rw [harb, if_pos hc, if_pos hv] at ho
          simp only [List.mem_cons, List.mem_singleton, List.not_mem_nil, or_false] at ho
          rcases ho with rfl | rfl
          · refine ⟨?_, ?_, ?_, ?_⟩ <;> (dsimp only; omega)
          · refine ⟨?_, ?_, ?_, ?_⟩ <;> (dsimp only; omega)
        · exfalso
          apply h
          rw [harb, if_pos hc, if_neg hv]
      · exfalso
        apply h
        rw [harb, if_neg hc]
  · refine ⟨?_, ?_, ?_, ?_, ?_⟩ <;>
      norm_num +decide [arbitrage_strategy, c7Books, c7Pos, is_up, headPL, risk_allowed,
        MAX_POSITION, THRESHOLD, record_trade, Ledger.get, Ledger.set, recordTrade,
        offsetFifo, emptyLedger, emptyQueues]

/-- Witness for C7: in the concrete scenario the strategy does fire, so the
persistence of the strict condition and the volume bounds hold there. -/
theorem arbitrage_fires_strictly_witness :
    (arbitrage_strategy c7Books c7Pos emptyLedger THRESHOLD).1 ≠ [] ∧
    (∃ us eu, c7Books Instrument.etf_us = some us ∧ c7Books Instrument.etf_eu = some eu ∧
      us.bids ≠ [] ∧ eu.asks ≠ [] ∧
      (headPL us.bids).price > (headPL eu.asks).price + THRESHOLD ∧
      ∀ o ∈ (arbitrage_strategy c7Books c7Pos emptyLedger THRESHOLD).1,
        o.volume ≤ (headPL us.bids).volume ∧ o.volume ≤ (headPL eu.asks).volume ∧
        o.volume ≤ risk_allowed c7Pos Instrument.etf_us SIDE_ASK ∧
        o.volume ≤ risk_allowed c7Pos Instrument.etf_eu SIDE_BID) := by
  have h : (arbitrage_strategy c7Books c7Pos emptyLedger THRESHOLD).1 ≠ [] := by
    norm_num +decide [arbitrage_strategy, c7Books, c7Pos, is_up, headPL, risk_allowed,
      MAX_POSITION, THRESHOLD, record_trade, Ledger.get, Ledger.set, recordTrade,
      offsetFifo, emptyLedger, emptyQueues]
  exact ⟨h, arbitrage_fires_strictly.1 c7Books c7Pos emptyLedger THRESHOLD h⟩

/-- C2 counterexample: with net positions summing to 310 and the breach timer
set 3 seconds ago, the corrective order on ETF_US is sized 13, which is not
ceil((310 - 250)/5) = 12 as the claim states. -/
theorem basket_correction_not_ceil :
    (check_and_correct_basket_limit (some 0) 3 c2Pos c2Books).2.2 =
      [⟨Instrument.etf_us, 100, 13, SIDE_ASK⟩] ∧
    ¬((13 : Int) = ⌈((310 : ℚ) - 250) / 5⌉) := by
  constructor
  · norm_num +decide [check_and_correct_basket_limit, basket_total, c2Pos, c2Books, posOf,
      basketCorrectionOrders, INSTRUMENT_IDS, List.filterMap]
  · have hceil : ⌈((310 : ℚ) - 250) / 5⌉ = 12 := by
      have h12 : ((310 : ℚ) - 250) / 5 = ((12 : Int) : ℚ) := by norm_num
      rw [h12, Int.ceil_intCast]
    rw [hceil]
    norm_num

/-- C2 amended: every corrective order of the basket guard is sized
min(|position on that instrument|, excess // 5 + 1), where // is floor
division, i.e. floor(excess/5) + 1 (this equals ceil(excess/5) only when 5
does not divide excess), with excess = basket - 250 on the over-long side and
-250 - basket on the over-short side. -/
theorem basket_correction_volume_formula (pos : Positions) (books : Books) (o : TradeOrder)
    (ho : o ∈ basketCorrectionOrders pos books) :
    o.volume = min |pos o.instrument|
      (Int.fdiv (if 300 < basket_total pos then basket_total pos - 250
                 else -250 - basket_total pos) 5 + 1) := by
  by_cases hover : basket_total pos > 300
  · simp only [basketCorrectionOrders, if_pos hover, List.mem_filterMap] at ho
    obtain ⟨i, hi, hf⟩ := ho
    by_cases hpos : pos i > 0
    · rw [if_pos hpos] at hf
      cases hb : books i with
      | none =>
        rw [hb] at hf
        simp at hf
      | some pb =>
        rw [hb] at hf
        dsimp only at hf
        cases hbl : pb.bids with
        | nil =>
          rw [hbl] at hf
          simp at hf
        | cons b rest =>
          rw [hbl] at hf
          simp only [Option.some.injEq] at hf
          rw [← hf]
          dsimp only
          rw [if_pos hover, abs_of_pos hpos]
    · rw [if_neg hpos] at hf
      simp at hf
  · by_cases hunder : basket_total pos < -300
    · simp only [basketCorrectionOrders, if_neg hover, if_pos hunder,
        List.mem_filterMap] at ho
      obtain ⟨i, hi, hf⟩ := ho
      by_cases hpos : pos i < 0
      · rw [if_pos hpos] at hf
        cases hb : books i with
        | none =>
          rw [hb] at hf
          simp at hf
        | some pb =>
          rw [hb] at hf
          dsimp only at hf
          cases hal : pb.asks with
          | nil =>
            rw [hal] at hf
            simp at hf
          | cons a rest =>
            rw [hal] at hf
            simp only [Option.some.injEq] at hf
            rw [← hf]
            dsimp only
            rw [if_neg hover]
      · rw [if_neg hpos] at hf
        simp at hf
    · simp only [basketCorrectionOrders, if_neg hover, if_neg hunder,
        List.not_mem_nil] at ho
/-- Witness for the amended C2: the order of size 13 produced at basket 310 is
indeed sized min(|310|, 60 // 5 + 1). -/
theorem basket_correction_volume_formula_witness :
    (⟨Instrument.etf_us, 100, 13, SIDE_ASK⟩ : TradeOrder) ∈
      basketCorrectionOrders c2Pos c2Books ∧
    (⟨Instrument.etf_us, 100, 13, SIDE_ASK⟩ : TradeOrder).volume =
      min |c2Pos (⟨Instrument.etf_us, 100, 13, SIDE_ASK⟩ : TradeOrder).instrument|
        (Int.fdiv (if 300 < basket_total c2Pos then basket_total c2Pos - 250
                   else -250 - basket_total c2Pos) 5 + 1) := by
  have hmem : (⟨Instrument.etf_us, 100, 13, SIDE_ASK⟩ : TradeOrder) ∈
      basketCorrectionOrders c2Pos c2Books := by
    norm_num +decide [basketCorrectionOrders, basket_total, c2Pos, c2Books, posOf,
      INSTRUMENT_IDS, List.filterMap]
  exact ⟨hmem, basket_correction_volume_formula c2Pos c2Books _ hmem⟩

/-- C1 (code bug): at ETF_US position 745, with the undervalued-hedge
condition met, ample touch volumes and buy headroom 5, the hedge orders a buy
of 3 x 5 = 15 on ETF_US, whose optimistic fill yields position 760, beyond
the hard cap of 750: the basket leg is risk-checked at the unit volume but
ordered at three times it. -/
theorem hedge_cap_breach_at_745 :
    (hedge_basket_strategy c1Books c1Pos zeroCache emptyLedger).2.1 =
      [⟨Instrument.etf_us, 100, 15, SIDE_BID⟩,
       ⟨Instrument.asml, 200, 5, SIDE_ASK⟩,
       ⟨Instrument.amd, 200, 5, SIDE_ASK⟩,
       ⟨Instrument.nvda, 200, 5, SIDE_ASK⟩] ∧
    risk_allowed c1Pos Instrument.etf_us SIDE_BID = 5 ∧
    MAX_POSITION < c1Pos Instrument.etf_us + 15 := by
  refine ⟨?_, ?_, ?_⟩ <;>
    norm_num +decide [hedge_basket_strategy, hedgeBooksMissing, hedgeSidesEmpty, c1Books,
      c1Pos, posOf, zeroCache, update_underlying_prices, lastOr, headPL, risk_allowed,
      MAX_POSITION, SIDE_BID, SIDE_ASK, BASKET_THRESHOLD, record_trade, Ledger.get,
      Ledger.set, recordTrade, offsetFifo, emptyLedger, emptyQueues]
